import Mathlib

/-!
Verification of the eino ReAct agent (`flow/agent/react/react.go`) against its
natural-language specification.

The data model and the agent's node handlers, branch conditions and stream
tool-call detection are embedded from the Go source.  The external scheduling
engine (the `compose` graph runtime) is not part of the repository; a bounded
driver loop for the compiled graph is modelled from the spec where needed.
-/

/-- `schema.FunctionCall`: name is atomic, arguments arrive incrementally. -/
structure FunctionCall where
  name : String
  arguments : String
deriving DecidableEq, Repr

/-- `schema.ToolCall`: `Index` is an optional per-fragment sequence index used
when merging streamed fragments of a tool-call request. -/
structure ToolCall where
  index : Option Int
  id : String
  type : String
  function : FunctionCall
deriving DecidableEq, Repr

/-- Message roles of `schema.RoleType`. -/
inductive RoleType where
  | assistant
  | user
  | system
  | tool
deriving DecidableEq, Repr

/-- `schema.Message`, restricted to the fields the react agent reads:
role, textual content, tool-call requests and the correlating tool-call id. -/
structure Message where
  role : RoleType
  content : String
  toolCalls : List ToolCall
  toolCallID : String
deriving DecidableEq, Repr

instance : Inhabited Message := ⟨⟨RoleType.assistant, "", [], ""⟩⟩

/-- The react agent's `state`: message history plus the pending
direct-return tool-call id (`ReturnDirectlyToolCallID`). -/
structure AgentState where
  messages : List Message
  returnDirectlyToolCallID : String
deriving DecidableEq, Repr

/-- Node keys of the computation graph (`nodeKeyTools`, `nodeKeyModel`,
`nodeKeyDirectReturn` and `compose.END`). -/
def nodeKeyTools : String := "tools"

def nodeKeyModel : String := "chat"

def nodeKeyDirectReturn : String := "direct_return"

def composeEND : String := "end"

/-- `schema.ErrNoValue`, the error surfaced when a stream conversion finds no
value to emit. -/
def schemaErrNoValue : String := "no value"

/-- `firstChunkStreamToolCallChecker`: the default stream tool-call detector.
Reads fragments in order; `true` at the first fragment with a non-empty
tool-call list, skip fragments that are empty in both fields, `false` at the
first fragment with non-empty content and no tool calls, `false` on
exhaustion. -/
def firstChunkStreamToolCallChecker : List Message → Bool
  | [] => false
  | msg :: rest =>
    if msg.toolCalls.length > 0 then true
    else if msg.content.length = 0 then firstChunkStreamToolCallChecker rest
    else false

/-- The loop body of `getReturnDirectlyToolCallID`: scan the tool calls in
request order and return the id of the first whose name is in the
direct-return set. -/
def findReturnDirectlyID (toolCalls : List ToolCall) (toolReturnDirectly : List String) : String :=
  match toolCalls with
  | [] => ""
  | tc :: rest =>
    if toolReturnDirectly.contains tc.function.name then tc.id
    else findReturnDirectlyID rest toolReturnDirectly

/-- `getReturnDirectlyToolCallID`: empty string when no direct-return tools are
configured, otherwise the id of the first tool call whose name is in the
configured set (empty string when none matches). -/
def getReturnDirectlyToolCallID (input : Message) (toolReturnDirectly : List String) : String :=
  if toolReturnDirectly.length = 0 then ""
  else findReturnDirectlyID input.toolCalls toolReturnDirectly

/-- `modelPreHandle`: append the pending input to the state's message history;
return the history itself when no `MessageModifier` is configured, otherwise
the modifier applied to a copy of the history.  Returns the model input
together with the updated state. -/
def modelPreHandle (messageModifier : Option (List Message → List Message))
    (input : List Message) (st : AgentState) : List Message × AgentState :=
  let st1 : AgentState := { st with messages := st.messages ++ input }
  match messageModifier with
  | none => (st1.messages, st1)
  | some f => (f st1.messages, st1)

/-- `toolsNodePreHandle`: on `nil` input (resumed run) return the last message
of the history, `state.Messages[len(state.Messages)-1]`, leaving the state
untouched (`none` models the Go index-out-of-range panic on an empty history);
otherwise append the assistant message to the history and record the
direct-return marker. -/
def toolsNodePreHandle (input : Option Message) (st : AgentState)
    (toolReturnDirectly : List String) : Option (Message × AgentState) :=
  match input with
  | none => (st.messages[st.messages.length - 1]?).map (fun m => (m, st))
  | some msg =>
    some (msg, { messages := st.messages ++ [msg],
                 returnDirectlyToolCallID := getReturnDirectlyToolCallID msg toolReturnDirectly })

/-- `modelPostBranchCondition`: propagate a checker error, route to the tools
node when the checker reports a tool call, otherwise to `compose.END`. -/
def modelPostBranchCondition (checkerResult : Except String Bool) : Except String String :=
  match checkerResult with
  | Except.error e => Except.error e
  | Except.ok true => Except.ok nodeKeyTools
  | Except.ok false => Except.ok composeEND

/-- The stream branch installed by `buildReturnDirectly`: route to the
direct-return node when the state carries a pending direct-return tool-call
id, otherwise back to the model node. -/
def returnDirectlyBranch (st : AgentState) : String :=
  if st.returnDirectlyToolCallID.length > 0 then nodeKeyDirectReturn
  else nodeKeyModel

/-- The scan inside `directReturn`: first non-nil message whose `ToolCallID`
equals the pending marker. -/
def directReturnLoop (marker : String) : List (Option Message) → Option Message
  | [] => none
  | none :: rest => directReturnLoop marker rest
  | some m :: rest =>
    if m.toolCallID = marker then some m else directReturnLoop marker rest

/-- `directReturn` (the lambda of `buildReturnDirectly`): return the first
non-nil tool result whose `ToolCallID` matches the state's marker, or
`schema.ErrNoValue` when none matches. -/
def directReturn (marker : String) (msgs : List (Option Message)) : Except String Message :=
  match directReturnLoop marker msgs with
  | some m => Except.ok m
  | none => Except.error schemaErrNoValue

/-- Outcome of one run of the compiled graph. -/
inductive RunResult where
  | final (m : Message)
  | errNoValue
  | errDetector (e : String)
  | errMaxSteps
deriving DecidableEq, Repr

/-- Modelled from the spec: the external scheduling engine's bounded execution
of the compiled react graph, missing from `src/`.  The engine runs one node per
step (`WithMaxRunSteps`), fails the run with a distinct step-bound error when
the budget is exhausted, and routes between the model node, the tools node and
the direct-return node exactly as the branches wired in `NewAgent` and
`buildReturnDirectly` dictate.  `modelF` is the black-box chat model (handled
history to assistant message), `toolF` the black-box tool executor (assistant
message to tool result messages).  The second result component counts model
invocations. -/
def runLoop (toolReturnDirectly : List String) (modelF : List Message → Message)
    (toolF : Message → List Message) :
    Nat → List Message → AgentState → Nat → RunResult × Nat
  | 0, _, _, calls => (RunResult.errMaxSteps, calls)
  | fuel + 1, input, st, calls =>
    let p := modelPreHandle none input st
    let out := modelF p.1
    let calls1 := calls + 1
    match modelPostBranchCondition (Except.ok (firstChunkStreamToolCallChecker [out])) with
    | Except.error e => (RunResult.errDetector e, calls1)
    | Except.ok node =>
      if node = nodeKeyTools then
        match fuel with
        | 0 => (RunResult.errMaxSteps, calls1)
        | fuel1 + 1 =>
          match toolsNodePreHandle (some out) p.2 toolReturnDirectly with
          | none => (RunResult.errNoValue, calls1)
          | some q =>
            let results := toolF q.1
            if toolReturnDirectly.length = 0 then
              runLoop toolReturnDirectly modelF toolF fuel1 results q.2 calls1
            else if returnDirectlyBranch q.2 = nodeKeyDirectReturn then
              match fuel1 with
              | 0 => (RunResult.errMaxSteps, calls1)
              | _ + 1 =>
                match directReturn q.2.returnDirectlyToolCallID (results.map some) with
                | Except.ok m => (RunResult.final m, calls1)
                | Except.error _ => (RunResult.errNoValue, calls1)
            else
              runLoop toolReturnDirectly modelF toolF fuel1 results q.2 calls1
      else (RunResult.final out, calls1)

/-- State of the package-level `sync.Once` guarding
`compose.RegisterSerializableType[state]`: whether `Do` has already run, and
whether the registration it attempted succeeded. -/
structure OnceState where
  done : Bool
  registered : Bool
deriving DecidableEq, Repr

/-- The fresh `sync.Once` at process start. -/
def initialOnce : OnceState := ⟨false, false⟩

/-- The construction error reported when type registration fails. -/
def registrationError : String := "register serializable type failed"

/-- The registration prologue of `NewAgent`: `registerStateOnce.Do` runs the
registration only when it has not run before; the named error return stays
`nil` otherwise.  `regFails` says whether the single attempt fails.  Returns
the error `NewAgent` observes and the updated once-state. -/
def newAgentRegister (regFails : Bool) (once : OnceState) : Option String × OnceState :=
  if once.done then (none, once)
  else if regFails then (some registrationError, { done := true, registered := false })
  else (none, { done := true, registered := true })

/-- The `n`-th `NewAgent` call in a process (counting from 0), threading the
`sync.Once` state through the successive calls. -/
def runNewAgentCalls (regFails : Bool) : Nat → Option String × OnceState
  | 0 => newAgentRegister regFails initialOnce
  | n + 1 => newAgentRegister regFails (runNewAgentCalls regFails n).2

/-- Fold step of `concatToolCalls`' per-index merge: the atomic fields (id,
type, name) are overwritten by each non-empty occurrence, the arguments are
appended in arrival order. -/
def mergeChunk (acc c : ToolCall) : ToolCall :=
  { acc with
    id := if c.id ≠ "" then c.id else acc.id,
    type := if c.type ≠ "" then c.type else acc.type,
    function :=
      { name := if c.function.name ≠ "" then c.function.name else acc.function.name,
        arguments :=
          if c.function.arguments ≠ "" then acc.function.arguments ++ c.function.arguments
          else acc.function.arguments } }

/-- `concatToolCalls`' merge of one index group, folding `mergeChunk` over the
chunks carrying that index, in arrival order. -/
def mergeGroup (i : Int) (chunks : List ToolCall) : ToolCall :=
  (chunks.filter (fun c => c.index = some i)).foldl mergeChunk ⟨some i, "", "", ⟨"", ""⟩⟩

/-- The distinct indices occurring in the chunk list, in order of first
appearance (the Go code groups them in a map; map iteration order is not
specified, a first-appearance order is fixed here). -/
def collectIndices (acc : List Int) : List ToolCall → List Int
  | [] => acc
  | c :: rest =>
    match c.index with
    | none => collectIndices acc rest
    | some i => collectIndices (if acc.contains i then acc else acc ++ [i]) rest

/-- `concatToolCalls`: chunks without an index pass through unchanged in
arrival order; chunks sharing an index are merged into one tool call per
index. -/
def concatToolCalls (chunks : List ToolCall) : List ToolCall :=
  chunks.filter (fun c => c.index = none) ++
    (collectIndices [] chunks).map (fun i => mergeGroup i chunks)

/-- The claimed per-index merge, following the spec's words: the id, type and
name fields take the FIRST non-empty value seen across the index's fragments
(the code takes the last); arguments are concatenated in arrival order. -/
def mergeChunkFirstWins (acc c : ToolCall) : ToolCall :=
  { acc with
    id := if acc.id = "" then c.id else acc.id,
    type := if acc.type = "" then c.type else acc.type,
    function :=
      { name := if acc.function.name = "" then c.function.name else acc.function.name,
        arguments := acc.function.arguments ++ c.function.arguments } }

/-- Per-index merge under the spec's first-non-empty-wins reading. -/
def mergeGroupFirstWins (i : Int) (chunks : List ToolCall) : ToolCall :=
  (chunks.filter (fun c => c.index = some i)).foldl mergeChunkFirstWins ⟨some i, "", "", ⟨"", ""⟩⟩

/-- `concatToolCalls` under the spec's first-non-empty-wins reading. -/
def concatToolCallsFirstWins (chunks : List ToolCall) : List ToolCall :=
  chunks.filter (fun c => c.index = none) ++
    (collectIndices [] chunks).map (fun i => mergeGroupFirstWins i chunks)

/-- `claudeStyleToolCallChecker` (full-consume policy): collect every fragment,
merge them into one message (`schema.ConcatMessages`, whose tool-call merge is
`concatToolCalls` over the concatenation of the fragments' tool-call lists),
then report whether the merged message carries any tool call; an empty stream
reports `false`. -/
def claudeStyleToolCallChecker (frags : List Message) : Bool :=
  match frags with
  | [] => false
  | _ => (concatToolCalls (frags.map Message.toolCalls).flatten).length > 0

/-- Last non-empty string of a list, empty when there is none; describes the
atomic-field merge the code actually performs. -/
def lastNonEmpty (l : List String) : String :=
  l.foldl (fun a s => if s ≠ "" then s else a) ""

/-- Sample user input message (spec scenario A/B). -/
def userMsg : Message := ⟨RoleType.user, "2+2?", [], ""⟩

/-- Sample tool-call request for the tool named `search`, id `c1`. -/
def tcSearch : ToolCall := ⟨none, "c1", "function", ⟨"search", "q"⟩⟩

/-- Sample assistant message requesting the `search` tool. -/
def asstTool : Message := ⟨RoleType.assistant, "", [tcSearch], ""⟩

/-- Sample assistant message with plain text and no tool calls. -/
def asstText : Message := ⟨RoleType.assistant, "4", [], ""⟩

/-- Sample tool result correlated to call `c1` (spec scenarios B/C). -/
def toolRes : Message := ⟨RoleType.tool, "result", [], "c1"⟩

/-- A fragment empty in both content and tool calls (priming chunk). -/
def emptyFrag : Message := ⟨RoleType.assistant, "", [], ""⟩

/-- Tool-call fragment pair sharing index 0 with two different non-empty ids:
the first carries id `a` and the name, the second id `b` and more argument
text. -/
def chunkA : ToolCall := ⟨some 0, "a", "", ⟨"f", "x"⟩⟩

/-- Second fragment of the index-0 group, see `chunkA`. -/
def chunkB : ToolCall := ⟨some 0, "b", "", ⟨"", "y"⟩⟩

/-! ## Helper lemmas -/

lemma string_length_eq_zero (s : String) : s.length = 0 ↔ s = "" := by
  constructor
  · intro h
    cases s with
    | mk data =>
      simp [String.length] at h
      simp [h]
  · intro h
    simp [h]

lemma checker_singleton (m : Message) :
    firstChunkStreamToolCallChecker [m] = decide (0 < m.toolCalls.length) := by
  by_cases h : 0 < m.toolCalls.length
  · simp [firstChunkStreamToolCallChecker, h]
  · simp only [firstChunkStreamToolCallChecker, if_neg h, decide_eq_false h]
    exact ite_self false

lemma findReturnDirectlyID_eq_find (tcs : List ToolCall) (dset : List String) :
    findReturnDirectlyID tcs dset =
      ((tcs.find? (fun tc => dset.contains tc.function.name)).map ToolCall.id).getD "" := by
  induction tcs with
  | nil => rfl
  | cons tc rest ih =>
    by_cases h : tc.function.name ∈ dset
    · simp [findReturnDirectlyID, List.find?, h]
    · simp [findReturnDirectlyID, List.find?, h, ih]

lemma getReturnDirectlyToolCallID_eq (msg : Message) (dset : List String) :
    getReturnDirectlyToolCallID msg dset =
      ((msg.toolCalls.find? (fun tc => dset.contains tc.function.name)).map ToolCall.id).getD "" := by
  unfold getReturnDirectlyToolCallID
  by_cases h : dset.length = 0
  · have hd : dset = [] := List.length_eq_zero.mp h
    subst hd
    have hn : msg.toolCalls.find? (fun _ => false) = none := by
      rw [List.find?_eq_none]
      intro x _
      simp
    simp [hn]
  · simp [h, findReturnDirectlyID_eq_find]

lemma getReturnDirectlyToolCallID_ne_empty (msg : Message) (dset : List String)
    (h : getReturnDirectlyToolCallID msg dset ≠ "") : msg.toolCalls ≠ [] := by
  intro hm
  apply h
  rw [getReturnDirectlyToolCallID_eq, hm]
  rfl

lemma directReturnLoop_map_some (marker : String) (l : List Message) :
    directReturnLoop marker (l.map some) = l.find? (fun m => m.toolCallID == marker) := by
  induction l with
  | nil => rfl
  | cons m rest ih =>
    by_cases h : m.toolCallID = marker
    · simp [directReturnLoop, List.find?, h]
    · simp only [List.map_cons, directReturnLoop, if_neg h, List.find?]
      rw [ih]
      have hb : (m.toolCallID == marker) = false := by simpa using h
      simp [hb]

/-- Claim C2: the default stream tool-call detector returns true at the first
fragment carrying a non-empty tool-call list, false at the first fragment
carrying non-empty textual content with no tool calls, skips fragments empty
in both fields, and returns false on stream exhaustion with neither signal;
in particular an empty priming fragment followed by a tool-call fragment
yields true. -/
theorem react_C2 :
    (∀ msgs : List Message,
      firstChunkStreamToolCallChecker msgs =
        match msgs.dropWhile (fun m => m.toolCalls.isEmpty && m.content.isEmpty) with
        | [] => false
        | m :: _ => !m.toolCalls.isEmpty) ∧
    firstChunkStreamToolCallChecker [emptyFrag, asstTool] = true := by
  constructor
  · intro msgs
    induction msgs with
    | nil => rfl
    | cons m rest ih =>
      by_cases htc : m.toolCalls = []
      · by_cases hc : m.content = ""
        · have hpred : (m.toolCalls.isEmpty && m.content.isEmpty) = true := by
            rw [htc, hc]
            decide
          simp only [List.dropWhile_cons, hpred, if_pos]
          rw [← ih]
          simp [firstChunkStreamToolCallChecker, htc, hc]
        · have hce : m.content.isEmpty = false := by
            cases hb : m.content.isEmpty
            · rfl
            · exact absurd ((String.isEmpty_iff m.content).mp hb) hc
          have hlen : ¬ m.content.length = 0 :=
            fun h => hc ((string_length_eq_zero m.content).mp h)
          simp [List.dropWhile_cons, htc, hce, hlen, firstChunkStreamToolCallChecker]
      · have hlen : 0 < m.toolCalls.length := List.length_pos.mpr htc
        simp [List.dropWhile_cons, firstChunkStreamToolCallChecker, hlen, htc]
  · decide

/-- Claim C4: with a non-empty pending direct-return marker, the extractor
returns the first tool result whose toolCallID equals the marker, and fails
with the no-matching-value error when no result matches. -/
theorem react_C4 (marker : String) (msgs : List (Option Message))
    (hmarker : marker ≠ "") :
    directReturn marker msgs =
      match (msgs.filterMap id).find? (fun m => m.toolCallID == marker) with
      | some m => Except.ok m
      | none => Except.error schemaErrNoValue := by
  have hloop : directReturnLoop marker msgs =
      (msgs.filterMap id).find? (fun m => m.toolCallID == marker) := by
    induction msgs with
    | nil => rfl
    | cons m? rest ih =>
      cases m? with
      | none => simpa [directReturnLoop] using ih
      | some m =>
        by_cases h : m.toolCallID = marker
        · simp [directReturnLoop, List.find?, h]
        · have hb : (m.toolCallID == marker) = false := by simpa using h
          simp [directReturnLoop, List.find?, h, hb, ih]
  rw [directReturn, hloop]

/-- Claim C4 witness: the extractor evaluated on one matching result and on a
batch with no matching result. -/
theorem react_C4_witness :
    directReturn "c1" [some toolRes] = Except.ok toolRes ∧
    directReturn "c1" [none] = Except.error schemaErrNoValue := by
  constructor
  · rw [react_C4 "c1" [some toolRes] (by decide)]
    rfl
  · rw [react_C4 "c1" [none] (by decide)]
    rfl

/-- Claim C6: tools-node pre-processing with a non-nil input appends the
assistant message to the history and sets the pending direct-return id to the
id of the first tool-call request whose name is in the configured set, or to
the empty string when the set is empty or nothing matches; later eligible
requests are never recorded. -/
theorem react_C6 (msg : Message) (st : AgentState) (dset : List String) :
    toolsNodePreHandle (some msg) st dset =
      some (msg,
        { messages := st.messages ++ [msg],
          returnDirectlyToolCallID :=
            ((msg.toolCalls.find? (fun tc => dset.contains tc.function.name)).map
              ToolCall.id).getD "" }) := by
  rw [toolsNodePreHandle, getReturnDirectlyToolCallID_eq]

/-- Claim C7: model-node pre-processing appends the pending input to the
canonical history; with no preprocessing function the history itself is
returned, with one configured the function is applied to a duplicate, and in
every case the canonical history retained in the state is exactly the history
after the append, whatever the preprocessing function returns. -/
theorem react_C7 (modifier : Option (List Message → List Message))
    (input : List Message) (st : AgentState) :
    (modelPreHandle modifier input st).2 =
      ⟨st.messages ++ input, st.returnDirectlyToolCallID⟩ ∧
    (modelPreHandle none input st).1 = st.messages ++ input ∧
    ∀ f, (modelPreHandle (some f) input st).1 = f (st.messages ++ input) := by
  refine ⟨?_, rfl, fun f => rfl⟩
  cases modifier <;> rfl

/-- Claim C9: tools-node pre-processing with a nil input returns the last
message of the history and leaves the state unchanged; on an empty history the
last-element access is out of bounds (a Go panic), so the embedded function
returns none there. -/
theorem react_C9 (st : AgentState) (dset : List String) :
    toolsNodePreHandle none st dset = (st.messages.getLast?).map (fun m => (m, st)) ∧
    ∀ r, toolsNodePreHandle (none : Option Message) ⟨[], r⟩ dset = none := by
  constructor
  · rw [toolsNodePreHandle, List.getLast?_eq_getElem?]
  · intro r
    rfl

/-- Claim C10: the one-time state-type registration is attempted at most once
per process; when the single attempt fails, the first NewAgent call returns the
registration error, and every subsequent call observes a nil registration
error and proceeds with the type never registered. -/
theorem react_C10 :
    runNewAgentCalls true 0 = (some registrationError, ⟨true, false⟩) ∧
    ∀ n, runNewAgentCalls true (n + 1) = (none, ⟨true, false⟩) := by
  constructor
  · rfl
  · intro n
    induction n with
    | zero => rfl
    | succ k ih =>
      show newAgentRegister true (runNewAgentCalls true (k + 1)).2 = _
      rw [ih]
      rfl

lemma string_join_cons (a : String) (l : List String) :
    String.join (a :: l) = a ++ String.join l := by
  simp [String.join_eq]
  rfl

lemma foldl_mergeChunk (l : List ToolCall) (z : ToolCall) :
    l.foldl mergeChunk z =
      ⟨z.index,
       l.foldl (fun a c => if c.id ≠ "" then c.id else a) z.id,
       l.foldl (fun a c => if c.type ≠ "" then c.type else a) z.type,
       ⟨l.foldl (fun a c => if c.function.name ≠ "" then c.function.name else a) z.function.name,
        z.function.arguments ++ String.join (l.map (fun c => c.function.arguments))⟩⟩ := by
  induction l generalizing z with
  | nil =>
    simp [String.join]
  | cons c rest ih =>
    rw [List.foldl_cons, ih]
    have hargs : (mergeChunk z c).function.arguments =
        z.function.arguments ++ c.function.arguments := by
      by_cases h : c.function.arguments = ""
      · simp [mergeChunk, h]
      · simp [mergeChunk, h]
    have hidx : (mergeChunk z c).index = z.index := rfl
    have hid : (mergeChunk z c).id = if c.id ≠ "" then c.id else z.id := rfl
    have htype : (mergeChunk z c).type = if c.type ≠ "" then c.type else z.type := rfl
    have hname : (mergeChunk z c).function.name =
        if c.function.name ≠ "" then c.function.name else z.function.name := rfl
    rw [hidx, hid, htype, hname, hargs]
    simp [List.foldl_cons, string_join_cons, String.append_assoc]

lemma lastNonEmpty_eq_foldl (l : List String) (z : String) :
    l.foldl (fun a s => if s ≠ "" then s else a) z =
      if lastNonEmpty l = "" then z else lastNonEmpty l := by
  induction l generalizing z with
  | nil => simp [lastNonEmpty]
  | cons s rest ih =>
    rw [List.foldl_cons]
    show _ = if lastNonEmpty (s :: rest) = "" then z else lastNonEmpty (s :: rest)
    have hl : lastNonEmpty (s :: rest) =
        rest.foldl (fun a t => if t ≠ "" then t else a) (if s ≠ "" then s else "") := by
      rfl
    by_cases h : s = ""
    · rw [ih, hl]
      simp [h, lastNonEmpty]
    · rw [ih, hl, ih]
      by_cases hr : lastNonEmpty rest = "" <;> simp [hr, h]

/-- Claim C8 counterexample: two fragments of the same index group whose ids
are both non-empty (`a` then `b`) merge to id `b` under the code's
concatToolCalls, while the claimed first-non-empty-wins merge yields id `a`;
the two functions disagree at this input, refuting the claim as stated. -/
theorem react_C8_counterexample :
    concatToolCalls [chunkA, chunkB] = [⟨some 0, "b", "", ⟨"f", "xy"⟩⟩] ∧
    concatToolCallsFirstWins [chunkA, chunkB] = [⟨some 0, "a", "", ⟨"f", "xy"⟩⟩] ∧
    concatToolCalls [chunkA, chunkB] ≠ concatToolCallsFirstWins [chunkA, chunkB] := by
  refine ⟨rfl, rfl, ?_⟩
  decide

/-- Claim C8 (amended): the full-consume policy merges tool-call fragments by
matching per-fragment sequence index, with the id, type and name fields of
each merged request taking the LAST non-empty value seen across the index's
fragments and the argument fragments concatenated in arrival order, and then
reports whether the merged message carries any tool call. -/
theorem react_C8 (chunks : List ToolCall) (i : Int) (f : Message) (fs : List Message) :
    mergeGroup i chunks =
      ⟨some i,
       lastNonEmpty ((chunks.filter (fun c => c.index = some i)).map ToolCall.id),
       lastNonEmpty ((chunks.filter (fun c => c.index = some i)).map ToolCall.type),
       ⟨lastNonEmpty ((chunks.filter (fun c => c.index = some i)).map (fun c => c.function.name)),
        String.join
          ((chunks.filter (fun c => c.index = some i)).map (fun c => c.function.arguments))⟩⟩ ∧
    concatToolCalls chunks =
      chunks.filter (fun c => c.index = none) ++
        (collectIndices [] chunks).map (fun j => mergeGroup j chunks) ∧
    claudeStyleToolCallChecker (f :: fs) =
      decide (0 < (concatToolCalls ((f :: fs).map Message.toolCalls).flatten).length) := by
  refine ⟨?_, rfl, rfl⟩
  rw [mergeGroup, foldl_mergeChunk]
  have hid : (chunks.filter (fun c => c.index = some i)).foldl
      (fun a c => if c.id ≠ "" then c.id else a) "" =
      lastNonEmpty ((chunks.filter (fun c => c.index = some i)).map ToolCall.id) := by
    rw [lastNonEmpty, List.foldl_map]
  have htype : (chunks.filter (fun c => c.index = some i)).foldl
      (fun a c => if c.type ≠ "" then c.type else a) "" =
      lastNonEmpty ((chunks.filter (fun c => c.index = some i)).map ToolCall.type) := by
    rw [lastNonEmpty, List.foldl_map]
  have hname : (chunks.filter (fun c => c.index = some i)).foldl
      (fun a c => if c.function.name ≠ "" then c.function.name else a) "" =
      lastNonEmpty ((chunks.filter (fun c => c.index = some i)).map
        (fun c => c.function.name)) := by
    rw [lastNonEmpty, List.foldl_map]
  rw [hid, htype, hname, String.empty_append]

lemma string_ne_empty_length_pos (s : String) (h : s ≠ "") : 0 < s.length := by
  rcases Nat.eq_zero_or_pos s.length with h0 | hp
  · exact absurd ((string_length_eq_zero s).mp h0) h
  · exact hp

lemma runLoop_zero (dset : List String) (mF : List Message → Message)
    (tF : Message → List Message) (input : List Message) (st : AgentState) (c : Nat) :
    runLoop dset mF tF 0 input st c = (RunResult.errMaxSteps, c) := rfl

lemma runLoop_final (dset : List String) (mF : List Message → Message)
    (tF : Message → List Message) (fuel : Nat) (input : List Message) (st : AgentState) (c : Nat)
    (h : (mF (st.messages ++ input)).toolCalls = []) :
    runLoop dset mF tF (fuel + 1) input st c =
      (RunResult.final (mF (st.messages ++ input)), c + 1) := by
  have hch : firstChunkStreamToolCallChecker [mF (st.messages ++ input)] = false := by
    rw [checker_singleton, h]
    rfl
  have hne : (composeEND = nodeKeyTools) = False :=
    eq_false (by decide : ¬ composeEND = nodeKeyTools)
  rw [runLoop.eq_def]
  simp only [modelPreHandle, hch, modelPostBranchCondition, hne, if_false]

lemma runLoop_tools_exhausted (dset : List String) (mF : List Message → Message)
    (tF : Message → List Message) (input : List Message) (st : AgentState) (c : Nat)
    (h : (mF (st.messages ++ input)).toolCalls ≠ []) :
    runLoop dset mF tF 1 input st c = (RunResult.errMaxSteps, c + 1) := by
  have hch : firstChunkStreamToolCallChecker [mF (st.messages ++ input)] = true := by
    rw [checker_singleton]
    simpa using List.length_pos.mpr h
  rw [runLoop.eq_def]
  simp only [modelPreHandle, hch, modelPostBranchCondition, if_true]

lemma runLoop_back_to_model (dset : List String) (mF : List Message → Message)
    (tF : Message → List Message) (fuel : Nat) (input : List Message) (st : AgentState) (c : Nat)
    (htc : (mF (st.messages ++ input)).toolCalls ≠ [])
    (hmk : getReturnDirectlyToolCallID (mF (st.messages ++ input)) dset = "") :
    runLoop dset mF tF (fuel + 2) input st c =
      runLoop dset mF tF fuel (tF (mF (st.messages ++ input)))
        ⟨st.messages ++ input ++ [mF (st.messages ++ input)], ""⟩ (c + 1) := by
  have hch : firstChunkStreamToolCallChecker [mF (st.messages ++ input)] = true := by
    rw [checker_singleton]
    simpa using List.length_pos.mpr htc
  have hne : (nodeKeyModel = nodeKeyDirectReturn) = False :=
    eq_false (by decide : ¬ nodeKeyModel = nodeKeyDirectReturn)
  rw [runLoop.eq_def]
  simp only [modelPreHandle, hch, modelPostBranchCondition, if_true]
  simp only [toolsNodePreHandle, hmk]
  by_cases hd : dset.length = 0
  · simp only [hd, if_true, List.append_assoc]
  · simp only [hd, if_false, returnDirectlyBranch, String.length, if_neg]
    simp [hne, List.append_assoc]

lemma runLoop_direct_return (dset : List String) (mF : List Message → Message)
    (tF : Message → List Message) (fuel : Nat) (input : List Message) (st : AgentState) (c : Nat)
    (hmk : getReturnDirectlyToolCallID (mF (st.messages ++ input)) dset ≠ "") :
    runLoop dset mF tF (fuel + 3) input st c =
      (match directReturnLoop (getReturnDirectlyToolCallID (mF (st.messages ++ input)) dset)
          ((tF (mF (st.messages ++ input))).map some) with
       | some m => (RunResult.final m, c + 1)
       | none => (RunResult.errNoValue, c + 1)) := by
  have htc : (mF (st.messages ++ input)).toolCalls ≠ [] :=
    getReturnDirectlyToolCallID_ne_empty _ _ hmk
  have hch : firstChunkStreamToolCallChecker [mF (st.messages ++ input)] = true := by
    rw [checker_singleton]
    simpa using List.length_pos.mpr htc
  have hd : (dset.length = 0) = False := by
    apply eq_false
    intro hd0
    apply hmk
    rw [getReturnDirectlyToolCallID, if_pos hd0]
  have hbr : (returnDirectlyBranch
      ⟨st.messages ++ input ++ [mF (st.messages ++ input)],
        getReturnDirectlyToolCallID (mF (st.messages ++ input)) dset⟩ =
      nodeKeyDirectReturn) = True := by
    apply eq_true
    rw [returnDirectlyBranch]
    exact if_pos (string_ne_empty_length_pos _ hmk)
  rw [runLoop.eq_def]
  simp only [modelPreHandle, hch, modelPostBranchCondition, if_true]
  simp only [toolsNodePreHandle, hd, if_false]
  simp only [List.append_assoc] at hbr ⊢
  simp only [hbr, if_true, directReturn]
  cases hdl : directReturnLoop (getReturnDirectlyToolCallID (mF (st.messages ++ input)) dset)
      ((tF (mF (st.messages ++ input))).map some) <;> rfl

/-- Claim C1: in a run where the model's turn contains a tool call whose name
is in the configured direct-return set and tool execution produces a result
whose toolCallID equals the id of the first such eligible call, that exact
result message is the run's final output and the model is invoked exactly
once, never again after the tool execution. -/
theorem react_C1 (dset : List String) (mF : List Message → Message)
    (tF : Message → List Message) (fuel : Nat) (input : List Message) (st : AgentState)
    (c : Nat) (r : Message)
    (hmk : getReturnDirectlyToolCallID (mF (st.messages ++ input)) dset ≠ "")
    (hres : (tF (mF (st.messages ++ input))).find?
        (fun m => m.toolCallID == getReturnDirectlyToolCallID (mF (st.messages ++ input)) dset) =
        some r) :
    runLoop dset mF tF (fuel + 3) input st c = (RunResult.final r, c + 1) ∧
    r.toolCallID = getReturnDirectlyToolCallID (mF (st.messages ++ input)) dset := by
  have hloop := directReturnLoop_map_some
    (getReturnDirectlyToolCallID (mF (st.messages ++ input)) dset)
    (tF (mF (st.messages ++ input)))
  constructor
  · rw [runLoop_direct_return dset mF tF fuel input st c hmk, hloop, hres]
  · simpa using List.find?_some hres

/-- Claim C1 witness: a concrete run (direct-return set containing `search`,
model requesting `search` with id `c1`, tool returning a result tagged `c1`)
ends with that result as final output after a single model call. -/
theorem react_C1_witness :
    runLoop ["search"] (fun _ => asstTool) (fun _ => [toolRes]) 3 [userMsg] ⟨[], ""⟩ 0 =
      (RunResult.final toolRes, 1) ∧
    toolRes.toolCallID = getReturnDirectlyToolCallID asstTool ["search"] :=
  react_C1 ["search"] (fun _ => asstTool) (fun _ => [toolRes]) 0 [userMsg] ⟨[], ""⟩ 0 toolRes
    (by decide) (by decide)

/-- Claim C3: without direct-return configuration the loop terminates exactly
when a model turn yields no tool calls or when the step bound is exceeded,
never earlier: a final message is always a model output with no tool calls,
the run never fails with any other error, and a step bound of 1 with a model
that always requests a tool call fails with the step-bound error, which is
distinct from the other outcomes. -/
theorem react_C3 (mF : List Message → Message) (tF : Message → List Message)
    (fuel : Nat) (input : List Message) (st : AgentState) (c : Nat) :
    (∀ m n, runLoop [] mF tF fuel input st c = (RunResult.final m, n) →
      m.toolCalls = [] ∧ ∃ h, m = mF h) ∧
    (runLoop [] mF tF fuel input st c).1 ≠ RunResult.errNoValue ∧
    (∀ e, (runLoop [] mF tF fuel input st c).1 ≠ RunResult.errDetector e) ∧
    runLoop [] (fun _ => asstTool) (fun _ => [toolRes]) 1 [userMsg] ⟨[], ""⟩ 0 =
      (RunResult.errMaxSteps, 1) ∧
    (∀ m, RunResult.errMaxSteps ≠ RunResult.final m) ∧
    RunResult.errMaxSteps ≠ RunResult.errNoValue := by
  have main : ∀ fuel input st c,
      (∀ m n, runLoop [] mF tF fuel input st c = (RunResult.final m, n) →
        m.toolCalls = [] ∧ ∃ h, m = mF h) ∧
      (runLoop [] mF tF fuel input st c).1 ≠ RunResult.errNoValue ∧
      (∀ e, (runLoop [] mF tF fuel input st c).1 ≠ RunResult.errDetector e) := by
    intro fuel
    induction fuel using Nat.strong_induction_on with
    | _ fuel ih =>
      intro input st c
      cases fuel with
      | zero =>
        rw [runLoop_zero]
        refine ⟨fun m n h => ?_, by simp, by simp⟩
        exact absurd (congrArg Prod.fst h) (by simp)
      | succ fuel0 =>
        by_cases htc : (mF (st.messages ++ input)).toolCalls = []
        · rw [runLoop_final [] mF tF fuel0 input st c htc]
          refine ⟨fun m n h => ?_, by simp, by simp⟩
          have hm : mF (st.messages ++ input) = m := by
            have := congrArg Prod.fst h
            simpa using this
          exact ⟨hm ▸ htc, st.messages ++ input, hm.symm⟩
        · cases fuel0 with
          | zero =>
            rw [runLoop_tools_exhausted [] mF tF input st c htc]
            refine ⟨fun m n h => ?_, by simp, by simp⟩
            exact absurd (congrArg Prod.fst h) (by simp)
          | succ fuel1 =>
            have hmk : getReturnDirectlyToolCallID (mF (st.messages ++ input)) [] = "" := rfl
            rw [runLoop_back_to_model [] mF tF fuel1 input st c htc hmk]
            exact ih fuel1 (by omega) _ _ _
  refine ⟨(main fuel input st c).1, (main fuel input st c).2.1, (main fuel input st c).2.2,
    ?_, by intro m; simp, by simp⟩
  exact runLoop_tools_exhausted [] (fun _ => asstTool) (fun _ => [toolRes]) [userMsg] ⟨[], ""⟩ 0
    (by decide)

/-- Claim C3 witness: a terminating concrete run produces a no-tool-call model
message, and the step-bound-1 always-tool-calling run fails with the
step-bound error. -/
theorem react_C3_witness :
    (asstText.toolCalls = [] ∧
      ∃ h : List Message, asstText = (fun _ : List Message => asstText) h) ∧
    runLoop [] (fun _ => asstTool) (fun _ => [toolRes]) 1 [userMsg] ⟨[], ""⟩ 0 =
      (RunResult.errMaxSteps, 1) := by
  have h := react_C3 (fun _ => asstText) (fun _ => []) 2 [userMsg] ⟨[], ""⟩ 0
  refine ⟨h.1 asstText 1 (by decide), h.2.2.2.1⟩

/-- Claim C5: the post-model branch routes a true detector verdict to the tool
stage, a false verdict to termination with the model's message as final output,
and propagates a detector error; the post-tool branch, when direct-return is
configured, routes a non-empty pending marker to the direct-return extractor
and then termination, an empty marker back to the model stage, and when
direct-return is not configured the tool stage routes unconditionally back to
the model stage. -/
theorem react_C5 :
    (∀ e, modelPostBranchCondition (Except.error e) = Except.error e) ∧
    modelPostBranchCondition (Except.ok true) = Except.ok nodeKeyTools ∧
    modelPostBranchCondition (Except.ok false) = Except.ok composeEND ∧
    (∀ st : AgentState, st.returnDirectlyToolCallID ≠ "" →
      returnDirectlyBranch st = nodeKeyDirectReturn) ∧
    (∀ st : AgentState, st.returnDirectlyToolCallID = "" →
      returnDirectlyBranch st = nodeKeyModel) ∧
    (∀ (dset : List String) (mF : List Message → Message) (tF : Message → List Message)
      (fuel : Nat) (input : List Message) (st : AgentState) (c : Nat),
      (mF (st.messages ++ input)).toolCalls = [] →
      runLoop dset mF tF (fuel + 1) input st c =
        (RunResult.final (mF (st.messages ++ input)), c + 1)) ∧
    (∀ (mF : List Message → Message) (tF : Message → List Message)
      (fuel : Nat) (input : List Message) (st : AgentState) (c : Nat),
      (mF (st.messages ++ input)).toolCalls ≠ [] →
      runLoop [] mF tF (fuel + 2) input st c =
        runLoop [] mF tF fuel (tF (mF (st.messages ++ input)))
          ⟨st.messages ++ input ++ [mF (st.messages ++ input)], ""⟩ (c + 1)) ∧
    (∀ (dset : List String) (mF : List Message → Message) (tF : Message → List Message)
      (fuel : Nat) (input : List Message) (st : AgentState) (c : Nat),
      dset ≠ [] →
      (mF (st.messages ++ input)).toolCalls ≠ [] →
      getReturnDirectlyToolCallID (mF (st.messages ++ input)) dset = "" →
      runLoop dset mF tF (fuel + 2) input st c =
        runLoop dset mF tF fuel (tF (mF (st.messages ++ input)))
          ⟨st.messages ++ input ++ [mF (st.messages ++ input)], ""⟩ (c + 1)) ∧
    (∀ (dset : List String) (mF : List Message → Message) (tF : Message → List Message)
      (fuel : Nat) (input : List Message) (st : AgentState) (c : Nat),
      getReturnDirectlyToolCallID (mF (st.messages ++ input)) dset ≠ "" →
      runLoop dset mF tF (fuel + 3) input st c =
        (match directReturn (getReturnDirectlyToolCallID (mF (st.messages ++ input)) dset)
            ((tF (mF (st.messages ++ input))).map some) with
         | Except.ok m => (RunResult.final m, c + 1)
         | Except.error _ => (RunResult.errNoValue, c + 1))) := by
  refine ⟨fun e => rfl, rfl, rfl, ?_, ?_, ?_, ?_, ?_, ?_⟩
  · intro st h
    rw [returnDirectlyBranch]
    exact if_pos (string_ne_empty_length_pos _ h)
  · intro st h
    rw [returnDirectlyBranch, h]
    rfl
  · intro dset mF tF fuel input st c h
    exact runLoop_final dset mF tF fuel input st c h
  · intro mF tF fuel input st c h
    exact runLoop_back_to_model [] mF tF fuel input st c h rfl
  · intro dset mF tF fuel input st c _ htc hmk
    exact runLoop_back_to_model dset mF tF fuel input st c htc hmk
  · intro dset mF tF fuel input st c hmk
    rw [runLoop_direct_return dset mF tF fuel input st c hmk, directReturn]
    cases directReturnLoop (getReturnDirectlyToolCallID (mF (st.messages ++ input)) dset)
        ((tF (mF (st.messages ++ input))).map some) <;> rfl

/-- Claim C5 witness: the branch decisions and loop routing equations
instantiated at concrete runs for each routing case. -/
theorem react_C5_witness :
    returnDirectlyBranch ⟨[], "c1"⟩ = nodeKeyDirectReturn ∧
    returnDirectlyBranch ⟨[], ""⟩ = nodeKeyModel ∧
    runLoop [] (fun _ => asstText) (fun _ => []) 5 [userMsg] ⟨[], ""⟩ 0 =
      (RunResult.final asstText, 1) ∧
    runLoop [] (fun _ => asstTool) (fun _ => [toolRes]) 4 [userMsg] ⟨[], ""⟩ 0 =
      runLoop [] (fun _ => asstTool) (fun _ => [toolRes]) 2 [toolRes]
        ⟨[userMsg, asstTool], ""⟩ 1 ∧
    runLoop ["other"] (fun _ => asstTool) (fun _ => [toolRes]) 4 [userMsg] ⟨[], ""⟩ 0 =
      runLoop ["other"] (fun _ => asstTool) (fun _ => [toolRes]) 2 [toolRes]
        ⟨[userMsg, asstTool], ""⟩ 1 ∧
    runLoop ["search"] (fun _ => asstTool) (fun _ => [toolRes]) 3 [userMsg] ⟨[], ""⟩ 0 =
      (RunResult.final toolRes, 1) := by
  obtain ⟨h1, h2, h3, h4, h5, h6, h7, h8, h9⟩ := react_C5
  refine ⟨h4 ⟨[], "c1"⟩ (by decide), h5 ⟨[], ""⟩ rfl, ?_, ?_, ?_, ?_⟩
  · exact h6 [] (fun _ => asstText) (fun _ => []) 4 [userMsg] ⟨[], ""⟩ 0 (by decide)
  · exact h7 (fun _ => asstTool) (fun _ => [toolRes]) 2 [userMsg] ⟨[], ""⟩ 0 (by decide)
  · exact h8 ["other"] (fun _ => asstTool) (fun _ => [toolRes]) 2 [userMsg] ⟨[], ""⟩ 0
      (by decide) (by decide) (by decide)
  · exact (h9 ["search"] (fun _ => asstTool) (fun _ => [toolRes]) 0 [userMsg] ⟨[], ""⟩ 0
      (by decide)).trans (by decide)
